import Mathlib

/-!
Shallow embedding of the color-label configuration module of the
dhlab-epfl cini_AOA_demo repository
(dh_segment_torch/data/color_labels.py), together with proofs about the
claims of its specification.

Colors are RGB triples of integers; one-hot values are rationals.  The
Python code stores one-hot values as numpy floats, but every magnitude
the module manipulates (channel values up to 255, list lengths of at
most a few hundred) is far below the range where float64 arithmetic
diverges from exact rational arithmetic, so the rational embedding is
faithful.  Fallible Python code (raising ValueError) is embedded as
Except String.
-/

/-- Truthiness of an optional Python list: None and the empty list are falsy. -/
def listTruthy {α : Type} : Option (List α) → Bool
  | some (_ :: _) => true
  | _ => false

/-- RGB color triple (integer channels). -/
abbrev RGB : Type := ℤ × ℤ × ℤ

/-- The ColorLabels object of color_labels.py with its four instance fields
(colors, one_hot_encoding, labels, log_labels). -/
structure ColorLabels where
  colors : List RGB
  one_hot_encoding : Option (List (List ℚ))
  labels : Option (List String)
  log_labels : Option (List String)
deriving Repr, DecidableEq

/-- The num_classes property: length of the first one-hot row when
one_hot_encoding is truthy, else the number of colors. -/
def num_classes_of (colors : List RGB) (enc : Option (List (List ℚ))) : ℕ :=
  match enc with
  | some (row0 :: _) => row0.length
  | _ => colors.length

/-- The joined display name of one row: labels selected where the one-hot
entry is nonzero, joined with a plus sign
(the line new_names.append of ColorLabels.__init__). -/
def rowLabelNames (labels : List String) (row : List ℚ) : String :=
  String.intercalate "+" ((labels.zip row).filterMap
    (fun p => if p.2 ≠ 0 then some p.1 else none))

/-- Forcing entry 0 of the derived display names to the literal string
background (line new_names[0] = "background"). -/
def setBackgroundHead : List String → List String
  | [] => []
  | _ :: rest => "background" :: rest

/-- The derived log_labels field computed by ColorLabels.__init__. -/
def logLabelsOf (enc : Option (List (List ℚ))) (labels : Option (List String)) :
    Option (List String) :=
  if listTruthy labels then
    if listTruthy enc then
      some (setBackgroundHead ((enc.getD []).map (rowLabelNames (labels.getD []))))
    else some (labels.getD [])
  else none

/-- ColorLabels.__init__: checks the one-hot row count against the color
count (only when one_hot_encoding is truthy) and the label count against
num_classes (only when labels is truthy), then stores the fields and the
derived log_labels.  The empty-one-hot-column warning of
_check_empty_labels_one_hot is non-fatal logging and has no observable
effect on the constructed object. -/
def mkColorLabels (colors : List RGB) (enc : Option (List (List ℚ)))
    (labels : Option (List String)) : Except String ColorLabels :=
  if listTruthy enc = true ∧ colors.length ≠ (enc.getD []).length then
    Except.error "Cannot have a different number of colors and one hot encoding"
  else if listTruthy labels = true ∧ num_classes_of colors enc ≠ (labels.getD []).length then
    Except.error "Cannot have a different number of classes and labels"
  else
    Except.ok (ColorLabels.mk colors enc labels (logLabelsOf enc labels))

/-- The multilabel property: one_hot_encoding is not None. -/
def ColorLabels.multilabel (cl : ColorLabels) : Bool :=
  cl.one_hot_encoding.isSome

/-- The num_classes property of a constructed object. -/
def ColorLabels.num_classes (cl : ColorLabels) : ℕ :=
  num_classes_of cl.colors cl.one_hot_encoding

/-- Truncation toward zero, the effect of casting a float to np.int32. -/
def truncQ (q : ℚ) : ℤ :=
  if 0 ≤ q then ⌊q⌋ else ⌈q⌉

/-- The JSON object written by ColorLabels.to_json: colors as integers,
one_hot_encoding as integers when truthy and null otherwise, labels
verbatim. -/
structure JsonKwargs where
  colors : List RGB
  one_hot_encoding : Option (List (List ℤ))
  labels : Option (List String)
deriving Repr, DecidableEq

/-- ColorLabels.to_json: the kwargs dictionary serialized to disk.
np.int32 of the (integer) colors is the identity; np.int32 of the
one-hot values truncates toward zero. -/
def ColorLabels.to_json (cl : ColorLabels) : JsonKwargs :=
  ⟨cl.colors,
   if listTruthy cl.one_hot_encoding then
     some ((cl.one_hot_encoding.getD []).map (fun row => row.map truncQ))
   else none,
   cl.labels⟩

/-- ColorLabels.from_labels_json_file on an existing file: loads the kwargs
and forwards them to the constructor (cls(**label_colors_kwargs)).  The
integer one-hot values read back from JSON are numeric values again. -/
def from_labels_json_file (kw : JsonKwargs) : Except String ColorLabels :=
  mkColorLabels kw.colors
    (kw.one_hot_encoding.map (fun rows => rows.map (fun row => row.map (fun (z : ℤ) => (z : ℚ)))))
    kw.labels

/-- Serializing with to_json and reconstructing with from_labels_json_file. -/
def json_round_trip (cl : ColorLabels) : Except String ColorLabels :=
  from_labels_json_file cl.to_json

/-- get_all_one_hots of color_labels.py: entry (i, j) of the array is 1 when
the bitwise and of i with 1 shifted left by j is positive, else 0. -/
def get_all_one_hots (num_classes : ℕ) : List (List ℕ) :=
  (List.range (2 ^ num_classes)).map (fun i =>
    (List.range num_classes).map (fun j => if 0 < i &&& (1 <<< j) then 1 else 0))

/-- Componentwise mean over the rationals (np.mean of an integer vector). -/
def meanQ (xs : List ℤ) : ℚ :=
  (xs.sum : ℚ) / (xs.length : ℚ)

/-- np.round semantics: round half to even. -/
def roundHalfEven (q : ℚ) : ℤ :=
  if q - ⌊q⌋ < 1 / 2 then ⌊q⌋
  else if 1 / 2 < q - ⌊q⌋ then ⌊q⌋ + 1
  else if ⌊q⌋ % 2 = 0 then ⌊q⌋ else ⌊q⌋ + 1

/-- The body of the loop of all_one_hot_and_colors: black for a row whose
sum is zero, else the componentwise rounded mean of the colors at the
nonzero positions of the row (np.where(one_hot)[0]). -/
def mixColor (colors : List RGB) (oneHot : List ℕ) : RGB :=
  if oneHot.sum = 0 then (0, 0, 0)
  else
    let sel := ((List.range oneHot.length).filter
      (fun j => decide (oneHot.getD j 0 ≠ 0))).map (fun j => colors.getD j (0, 0, 0))
    (roundHalfEven (meanQ (sel.map (fun c => c.1))),
     roundHalfEven (meanQ (sel.map (fun c => c.2.1))),
     roundHalfEven (meanQ (sel.map (fun c => c.2.2))))

/-- all_one_hot_and_colors of color_labels.py. -/
def all_one_hot_and_colors (colors : List RGB) : List (List ℕ) × List RGB :=
  let one_hots := get_all_one_hots colors.length
  (one_hots, one_hots.map (mixColor colors))

/-- Modelled from the spec: the integer-array predicate is_int_array of
dh_segment_torch/utils/ops.py (not part of the provided sources); the spec
documents it as reporting whether all values of a numeric vector are
integral. -/
def is_int_array (l : List ℚ) : Bool :=
  l.all (fun q => decide (q.den = 1))

/-- parse_validate_one_hot of color_labels.py, after numeric coercion: on an
all-integral vector it rejects any value other than 0 and 1, otherwise it
rejects values below 0 or above 1; on success it returns the numeric values
unchanged (the integer cast of the first branch does not change the value of
an integral rational). -/
def parse_validate_one_hot (oneHot : List ℚ) : Except String (List ℚ) :=
  if is_int_array oneHot then
    if oneHot.any (fun q => decide (q ≠ 0 ∧ q ≠ 1)) then
      Except.error "Found not 0 and 1 when one hot is integers."
    else Except.ok oneHot
  else
    if oneHot.any (fun q => decide (q < 0 ∨ 1 < q)) then
      Except.error "Found values smaller than 0 or larger than 1 in one-hot."
    else Except.ok oneHot

/-- A color specification as accepted by the external color parser: either an
RGB triple or a hex string. -/
inductive ColorSpec where
  | rgb (c : RGB)
  | hex (s : String)
deriving Repr, DecidableEq

/-- Value of one hexadecimal digit. -/
def hexDigitVal (c : Char) : Option ℕ :=
  if ('0' : Char) ≤ c ∧ c ≤ ('9' : Char) then some (c.toNat - ('0' : Char).toNat)
  else if ('a' : Char) ≤ c ∧ c ≤ ('f' : Char) then some (c.toNat - ('a' : Char).toNat + 10)
  else if ('A' : Char) ≤ c ∧ c ≤ ('F' : Char) then some (c.toNat - ('A' : Char).toNat + 10)
  else none

/-- Value of a two-digit hexadecimal channel. -/
def hexPairVal (c1 c2 : Char) : Option ℤ := do
  let a ← hexDigitVal c1
  let b ← hexDigitVal c2
  pure ((a * 16 + b : ℕ) : ℤ)

/-- Modelled from the spec: the hex branch of the external color parser
parse_and_validate_color of dh_segment_torch/data/utils.py (not part of the
provided sources); a hash sign followed by six hex digits denotes the three
RGB channels. -/
def parseHexColor (s : String) : Option RGB :=
  match s.toList with
  | ['#', r1, r2, g1, g2, b1, b2] => do
    let r ← hexPairVal r1 r2
    let g ← hexPairVal g1 g2
    let b ← hexPairVal b1 b2
    pure (r, g, b)
  | _ => none

/-- Modelled from the spec: the external color parser parse_and_validate_color
of dh_segment_torch/data/utils.py (not part of the provided sources); the spec
documents it as returning a validated integer RGB triple in [0, 255] or
failing with a ValidationError. -/
def parse_and_validate_color : ColorSpec → Except String RGB
  | ColorSpec.rgb (r, g, b) =>
      if 0 ≤ r ∧ r ≤ 255 ∧ 0 ≤ g ∧ g ≤ 255 ∧ 0 ≤ b ∧ b ≤ 255 then
        Except.ok (r, g, b)
      else Except.error "Invalid color"
  | ColorSpec.hex s =>
      match parseHexColor s with
      | some c => Except.ok c
      | none => Except.error "Invalid color"

/-- The effect of a Python list comprehension over a fallible function:
apply it elementwise, propagating the first raised error. -/
def mapExcept {α β : Type} (f : α → Except String β) : List α → Except String (List β)
  | [] => Except.ok []
  | a :: l => do
    let b ← f a
    let bs ← mapExcept f l
    pure (b :: bs)

/-- ColorLabels.from_colors: parses the colors, prepends a black background
row, prepends a background label when the labels list is truthy, and calls
the constructor. -/
def from_colors (cs : List ColorSpec) (labels : Option (List String)) :
    Except String ColorLabels := do
  let parsed ← mapExcept parse_and_validate_color cs
  let colors := ((0, 0, 0) : RGB) :: parsed
  let labels2 := if listTruthy labels then some ("background" :: labels.getD []) else labels
  mkColorLabels colors none labels2

/-- ColorLabels.from_filter_by_colors: keeps the rows whose color is in the
given set, carrying the aligned one-hot rows when the source encoding is
truthy and the aligned labels otherwise; finally, when the source encoding is
truthy, the new labels are replaced by the full original labels. -/
def from_filter_by_colors (cl : ColorLabels) (keep : List RGB) :
    Except String ColorLabels :=
  let kept := (List.range cl.colors.length).filter
    (fun i => decide (cl.colors.getD i (0, 0, 0) ∈ keep))
  let new_colors := kept.map (fun i => cl.colors.getD i (0, 0, 0))
  let new_enc : Option (List (List ℚ)) :=
    if listTruthy cl.one_hot_encoding then
      match kept with
      | [] => none
      | _ => some (kept.map (fun i => (cl.one_hot_encoding.getD []).getD i []))
    else none
  let new_labels0 : Option (List String) :=
    if listTruthy cl.one_hot_encoding then none
    else if listTruthy cl.labels then
      match kept with
      | [] => none
      | _ => some (kept.map (fun i => (cl.labels.getD []).getD i ""))
    else none
  let new_labels := if listTruthy cl.one_hot_encoding then cl.labels else new_labels0
  mkColorLabels new_colors new_enc new_labels

/-- One record of the list passed to ColorLabels.from_list_of_color_labels:
an optional color entry, an optional raw one-hot entry (numeric values after
coercion), an optional label name. -/
structure LabelRecord where
  color : Option ColorSpec
  one_hot : Option (List ℚ)
  label : Option String
deriving Repr, DecidableEq

/-- The mutable state of the loop of from_list_of_color_labels. -/
structure FLState where
  colors : List RGB
  enc : Option (List (List ℚ))
  labels : Option (List String)
  has_one_hot : Option Bool
  has_labels : Option Bool
  one_hot_size : Option ℕ
deriving Repr, DecidableEq

/-- The color and one-hot part of one iteration of the loop of
from_list_of_color_labels, in statement order: missing color error, color
parsing, color append, then the one-hot branch (flag and accumulator
initialization, value parsing, size initialization, presence check, size
check, row append) or the has_one_hot reset. -/
def stepOneHot (st : FLState) (r : LabelRecord) : Except String FLState :=
  match r.color with
  | none => Except.error "Need at least a color to define a label."
  | some cspec => do
    let c ← parse_and_validate_color cspec
    let st := { st with colors := st.colors ++ [c] }
    match r.one_hot with
    | some raw =>
      let st := if st.has_one_hot = none then
          { st with has_one_hot := some true, enc := some [] }
        else st
      let oh ← parse_validate_one_hot raw
      let st := if st.one_hot_size = none then
          { st with one_hot_size := some oh.length }
        else st
      if st.has_one_hot = some false then
        Except.error "Some labels have one hot defined, others not."
      else if st.one_hot_size ≠ some oh.length then
        Except.error "Some labels have different one hot sizes."
      else Except.ok { st with enc := some (st.enc.getD [] ++ [oh]) }
    | none => Except.ok { st with has_one_hot := some false }

/-- The label part of one iteration of the loop of
from_list_of_color_labels. -/
def stepLabel (st : FLState) (r : LabelRecord) : Except String FLState :=
  match r.label with
  | some lab =>
    let st := if st.has_labels = none then
        { st with has_labels := some true, labels := some [] }
      else st
    if st.has_labels = some false then
      Except.error "Some labels have a name, others not."
    else Except.ok { st with labels := some (st.labels.getD [] ++ [lab]) }
  | none => Except.ok { st with has_labels := some false }

/-- One full iteration of the loop of from_list_of_color_labels. -/
def stepRecord (st : FLState) (r : LabelRecord) : Except String FLState := do
  stepLabel (← stepOneHot st r) r

/-- The loop of from_list_of_color_labels over the record list. -/
def flocLoop : FLState → List LabelRecord → Except String FLState
  | st, [] => Except.ok st
  | st, r :: rs => do flocLoop (← stepRecord st r) rs

/-- ColorLabels.from_list_of_color_labels: runs the loop from the initial
state (empty colors, no encoding, the caller-supplied labels, all flags
unset) and hands the accumulated fields to the constructor. -/
def from_list_of_color_labels (rs : List LabelRecord) (labels : Option (List String)) :
    Except String ColorLabels := do
  let fin ← flocLoop ⟨[], none, labels, none, none, none⟩ rs
  mkColorLabels fin.colors fin.enc fin.labels

theorem listTruthy_none {α : Type} : listTruthy (none : Option (List α)) = false := rfl

theorem listTruthy_some_nil {α : Type} : listTruthy (some ([] : List α)) = false := rfl

/-- Inversion of a successful constructor call. -/
theorem mkColorLabels_ok {colors : List RGB} {enc : Option (List (List ℚ))}
    {labels : Option (List String)} {cl : ColorLabels}
    (h : mkColorLabels colors enc labels = Except.ok cl) :
    cl = ColorLabels.mk colors enc labels (logLabelsOf enc labels) ∧
    (listTruthy enc = true → colors.length = (enc.getD []).length) ∧
    (listTruthy labels = true → num_classes_of colors enc = (labels.getD []).length) := by
  unfold mkColorLabels at h
  split at h
  · exact absurd h (by simp)
  · split at h
    · exact absurd h (by simp)
    · refine ⟨by injection h with h2; exact h2.symm, ?_, ?_⟩
      · intro ht
        by_contra hne
        rename_i h1 _
        exact h1 ⟨ht, hne⟩
      · intro ht
        by_contra hne
        rename_i _ h2
        exact h2 ⟨ht, hne⟩

/-- A constructor call whose two checks pass succeeds. -/
theorem mkColorLabels_eq_ok {colors : List RGB} {enc : Option (List (List ℚ))}
    {labels : Option (List String)}
    (h1 : listTruthy enc = true → colors.length = (enc.getD []).length)
    (h2 : listTruthy labels = true → num_classes_of colors enc = (labels.getD []).length) :
    mkColorLabels colors enc labels =
      Except.ok (ColorLabels.mk colors enc labels (logLabelsOf enc labels)) := by
  unfold mkColorLabels
  rw [if_neg, if_neg]
  · rintro ⟨ht, hne⟩
    exact hne (h2 ht)
  · rintro ⟨ht, hne⟩
    exact hne (h1 ht)

/-- C6, counterexample: a mapping constructed with one color and a present
but empty one_hot_encoding has 0 one-hot rows and 1 color, yet construction
succeeds, contradicting the claim that any present encoding with a row count
different from the color count is rejected. -/
theorem c6_counterexample :
    mkColorLabels [((5 : ℤ), (5 : ℤ), (5 : ℤ))] (some ([] : List (List ℚ))) none =
      Except.ok (ColorLabels.mk [(5, 5, 5)] (some []) none none) ∧
    ((some ([] : List (List ℚ))).getD []).length ≠ [((5 : ℤ), (5 : ℤ), (5 : ℤ))].length :=
  ⟨rfl, by decide⟩

/-- C6, amended: whenever a mapping is constructed with a truthy (present and
non-empty) one_hot_encoding whose row count differs from the color count,
construction fails with a ValidationError. -/
theorem c6_row_count_mismatch (colors : List RGB) (enc : Option (List (List ℚ)))
    (labels : Option (List String)) (ht : listTruthy enc = true)
    (hm : colors.length ≠ (enc.getD []).length) :
    ∃ e, mkColorLabels colors enc labels = Except.error e := by
  refine ⟨"Cannot have a different number of colors and one hot encoding", ?_⟩
  unfold mkColorLabels
  rw [if_pos ⟨ht, hm⟩]

/-- C6, witness: constructing with 3 colors and a one_hot_encoding of 2 rows
fails with a ValidationError. -/
theorem c6_witness :
    ∃ e, mkColorLabels [((0 : ℤ), (0 : ℤ), (0 : ℤ)), (1, 1, 1), (2, 2, 2)]
      (some [[(1 : ℚ)], [(0 : ℚ)]]) none = Except.error e :=
  c6_row_count_mismatch [((0 : ℤ), (0 : ℤ), (0 : ℤ)), (1, 1, 1), (2, 2, 2)]
    (some [[(1 : ℚ)], [(0 : ℚ)]]) none (by decide) (by decide)

/-- C9: constructing with a non-empty colors list and an empty (but present)
one_hot_encoding succeeds without any row-count check; the result reports
multilabel = true while num_classes equals the number of colors. -/
theorem c9_empty_one_hot_encoding (colors : List RGB) (_h : colors ≠ []) :
    mkColorLabels colors (some []) none =
      Except.ok (ColorLabels.mk colors (some []) none none) ∧
    (ColorLabels.mk colors (some []) none none).multilabel = true ∧
    (ColorLabels.mk colors (some []) none none).num_classes = colors.length := by
  refine ⟨?_, rfl, rfl⟩
  have := @mkColorLabels_eq_ok colors (some []) none
    (by intro ht; exact absurd ht (by simp [listTruthy])) (by intro ht; exact absurd ht (by simp [listTruthy]))
  simpa [logLabelsOf, listTruthy] using this

/-- C9, witness: one concrete color. -/
theorem c9_witness :
    mkColorLabels [((1 : ℤ), (2 : ℤ), (3 : ℤ))] (some []) none =
      Except.ok (ColorLabels.mk [(1, 2, 3)] (some []) none none) ∧
    (ColorLabels.mk [((1 : ℤ), (2 : ℤ), (3 : ℤ))] (some []) none none).multilabel = true ∧
    (ColorLabels.mk [((1 : ℤ), (2 : ℤ), (3 : ℤ))] (some []) none none).num_classes =
      [((1 : ℤ), (2 : ℤ), (3 : ℤ))].length :=
  c9_empty_one_hot_encoding [((1 : ℤ), (2 : ℤ), (3 : ℤ))] (by decide)

lemma one_hot_entry (i j : ℕ) :
    (if 0 < i &&& (1 <<< j) then (1 : ℕ) else 0) = if i.testBit j then 1 else 0 := by
  rw [Nat.one_shiftLeft, Nat.and_two_pow]
  cases h : i.testBit j <;> simp [h, Nat.pos_pow_of_pos]

lemma get_all_one_hots_getD (n i : ℕ) (hi : i < 2 ^ n) :
    (get_all_one_hots n).getD i [] =
      (List.range n).map (fun j => if i.testBit j then 1 else 0) := by
  simp only [get_all_one_hots, List.getD_eq_getElem?_getD, List.getElem?_map]
  rw [List.getElem?_range hi]
  simp only [Option.map_some', Option.getD_some]
  exact List.map_congr_left (fun j _ => one_hot_entry i j)

/-- C3: get_all_one_hots n has exactly 2 raised to n rows, each of length n;
row 0 is all-zero; entry j of row i is bit j of the binary representation of
i (least-significant bit at position 0); and the rows are pairwise distinct
(the list has no duplicates). -/
theorem c3_get_all_one_hots (n : ℕ) :
    (get_all_one_hots n).length = 2 ^ n ∧
    (∀ row ∈ get_all_one_hots n, row.length = n) ∧
    (get_all_one_hots n).getD 0 [] = List.replicate n 0 ∧
    (∀ i, i < 2 ^ n → ∀ j, j < n →
      ((get_all_one_hots n).getD i []).getD j 0 = i / 2 ^ j % 2) ∧
    (get_all_one_hots n).Nodup := by
  refine ⟨by simp [get_all_one_hots], ?_, ?_, ?_, ?_⟩
  · intro row hrow
    simp only [get_all_one_hots, List.mem_map] at hrow
    obtain ⟨i, _, hrow⟩ := hrow
    simp [← hrow]
  · rw [get_all_one_hots_getD n 0 (Nat.pos_pow_of_pos n (by norm_num))]
    simp [Nat.zero_testBit, List.map_const']
  · intro i hi j hj
    rw [get_all_one_hots_getD n i hi]
    simp only [List.getD_eq_getElem?_getD, List.getElem?_map]
    rw [List.getElem?_range hj]
    simp only [Option.map_some', Option.getD_some]
    rw [Nat.testBit_to_div_mod]
    rcases Nat.mod_two_eq_zero_or_one (i / 2 ^ j) with h | h <;> simp [h]
  · unfold get_all_one_hots
    refine List.Nodup.map_on ?_ (List.nodup_range (2 ^ n))
    intro x hx y hy hf
    have hx2 : x < 2 ^ n := List.mem_range.mp hx
    have hy2 : y < 2 ^ n := List.mem_range.mp hy
    have hf2 : (List.range n).map (fun j => if x.testBit j then 1 else 0) =
        (List.range n).map (fun j => if y.testBit j then (1 : ℕ) else 0) :=
      (List.map_congr_left (fun j _ => one_hot_entry x j)).symm.trans
        (hf.trans (List.map_congr_left (fun j _ => one_hot_entry y j)))
    apply Nat.eq_of_testBit_eq
    intro k
    by_cases hk : k < n
    · have hjk := List.map_inj_left.mp hf2 k (List.mem_range.mpr hk)
      cases hxk : x.testBit k <;> cases hyk : y.testBit k <;>
        simp [hxk, hyk] at hjk <;> rfl
    · have hkx : x.testBit k = false :=
        Nat.testBit_lt_two_pow
          (lt_of_lt_of_le hx2 (Nat.pow_le_pow_right (by norm_num) (le_of_not_lt hk)))
      have hky : y.testBit k = false :=
        Nat.testBit_lt_two_pow
          (lt_of_lt_of_le hy2 (Nat.pow_le_pow_right (by norm_num) (le_of_not_lt hk)))
      rw [hkx, hky]

/-- C3, witness: the generator at n = 2, with the entry law instantiated at
row 3, position 1, a membership instance, and the all-zero first row. -/
theorem c3_witness :
    (get_all_one_hots 2).length = 2 ^ 2 ∧
    ((get_all_one_hots 2).getD 3 []).getD 1 0 = 3 / 2 ^ 1 % 2 ∧
    ([1, 1] : List ℕ).length = 2 ∧
    (get_all_one_hots 2).getD 0 [] = List.replicate 2 0 :=
  ⟨(c3_get_all_one_hots 2).1,
   (c3_get_all_one_hots 2).2.2.2.1 3 (by decide) 1 (by decide),
   (c3_get_all_one_hots 2).2.1 [1, 1] (by decide),
   (c3_get_all_one_hots 2).2.2.1⟩

lemma nat_list_sum_eq_zero {l : List ℕ} : l.sum = 0 ↔ ∀ x ∈ l, x = 0 := by
  induction l with
  | nil => simp
  | cons a t ih => simp [Nat.add_eq_zero, ih]

/-- The base colors whose bit is set in the integer i (the spec language for
the indices selected by np.where on row i of the generator). -/
def bitSelectedColors (colors : List RGB) (i : ℕ) : List RGB :=
  ((List.range colors.length).filter (fun j => i.testBit j)).map
    (fun j => colors.getD j (0, 0, 0))

lemma roundHalfEven_intCast (z : ℤ) : roundHalfEven (z : ℚ) = z := by
  unfold roundHalfEven
  rw [Int.floor_intCast]
  rw [if_pos (by norm_num)]

lemma abs_roundHalfEven_sub (q : ℚ) : |(roundHalfEven q : ℚ) - q| ≤ 1 / 2 := by
  have h1 : (⌊q⌋ : ℚ) ≤ q := Int.floor_le q
  have h2 : q < ⌊q⌋ + 1 := Int.lt_floor_add_one q
  unfold roundHalfEven
  split_ifs with ha hb hc <;>
    (rw [abs_le]; push_cast; constructor <;> linarith)

lemma row_getD (n i j : ℕ) (hj : j < n) :
    ((List.range n).map (fun k => if i.testBit k then (1 : ℕ) else 0)).getD j 0 =
      if i.testBit j then 1 else 0 := by
  simp only [List.getD_eq_getElem?_getD, List.getElem?_map]
  rw [List.getElem?_range hj]
  simp

lemma row_sum_zero_iff (n i : ℕ) :
    ((List.range n).map (fun k => if i.testBit k then (1 : ℕ) else 0)).sum = 0 ↔
      ∀ j, j < n → i.testBit j = false := by
  rw [nat_list_sum_eq_zero]
  constructor
  · intro h j hj
    have := h (if i.testBit j then 1 else 0)
      (List.mem_map.mpr ⟨j, List.mem_range.mpr hj, rfl⟩)
    cases hb : i.testBit j
    · rfl
    · rw [hb] at this
      simp at this
  · intro h x hx
    obtain ⟨j, hj, rfl⟩ := List.mem_map.mp hx
    simp [h j (List.mem_range.mp hj)]

lemma exists_testBit_of_ne_zero {i n : ℕ} (hi : i < 2 ^ n) (h0 : i ≠ 0) :
    ∃ j, j < n ∧ i.testBit j = true := by
  by_contra hall
  push_neg at hall
  apply h0
  apply Nat.eq_of_testBit_eq
  intro k
  rw [Nat.zero_testBit]
  by_cases hk : k < n
  · cases hb : i.testBit k
    · rfl
    · exact absurd hb (hall k hk)
  · exact Nat.testBit_lt_two_pow
      (lt_of_lt_of_le hi (Nat.pow_le_pow_right (by norm_num) (le_of_not_lt hk)))

lemma mixColor_bits (colors : List RGB) (i : ℕ)
    (hne0 : ∃ j, j < colors.length ∧ i.testBit j = true) :
    mixColor colors ((List.range colors.length).map
        (fun k => if i.testBit k then (1 : ℕ) else 0)) =
      (roundHalfEven (meanQ ((bitSelectedColors colors i).map (fun c => c.1))),
       roundHalfEven (meanQ ((bitSelectedColors colors i).map (fun c => c.2.1))),
       roundHalfEven (meanQ ((bitSelectedColors colors i).map (fun c => c.2.2)))) := by
  obtain ⟨j0, hj0, hb0⟩ := hne0
  unfold mixColor
  rw [if_neg]
  · have hsel : (((List.range ((List.range colors.length).map
        (fun k => if i.testBit k then (1 : ℕ) else 0)).length).filter
          (fun j => decide ((((List.range colors.length).map
            (fun k => if i.testBit k then (1 : ℕ) else 0)).getD j 0) ≠ 0))).map
            (fun j => colors.getD j (0, 0, 0))) = bitSelectedColors colors i := by
      unfold bitSelectedColors
      congr 1
      rw [List.length_map, List.length_range]
      apply List.filter_congr
      intro k hk
      rw [row_getD colors.length i k (List.mem_range.mp hk)]
      cases hb : i.testBit k <;> simp [hb]
    simp only [hsel]
  · rw [row_sum_zero_iff]
    push_neg
    exact ⟨j0, hj0, by rw [hb0]; simp⟩

lemma range_filter_eq_singleton {n j : ℕ} (hj : j < n) :
    (List.range n).filter (fun k => decide (j = k)) = [j] := by
  induction n with
  | zero => omega
  | succ m ih =>
    rw [List.range_succ, List.filter_append]
    by_cases h : j = m
    · subst h
      have h1 : (List.range j).filter (fun k => decide (j = k)) = [] := by
        rw [List.filter_eq_nil_iff]
        intro a ha
        simp only [decide_eq_true_eq]
        exact fun he => absurd (List.mem_range.mp ha) (by omega)
      rw [h1]
      simp
    · have hj2 : j < m := by omega
      rw [ih hj2]
      simp [h]

lemma all_one_hot_colors_getD (colors : List RGB) (i : ℕ)
    (hi : i < 2 ^ colors.length) :
    (all_one_hot_and_colors colors).2.getD i (0, 0, 0) =
      mixColor colors ((get_all_one_hots colors.length).getD i []) := by
  have hlen : i < (get_all_one_hots colors.length).length := by
    simpa [get_all_one_hots] using hi
  simp only [all_one_hot_and_colors]
  simp only [List.getD_eq_getElem?_getD, List.getElem?_map]
  rw [List.getElem?_eq_getElem hlen]
  simp

/-- C4: for a non-empty base color list, the color list of
all_one_hot_and_colors has the same length as its one-hot list and is aligned
with it row by row; the all-zero row gets black; a single-bit row gets the
corresponding base color exactly; every other row gets the componentwise
rounded (numpy round, half to even) mean of the base colors whose bit is set;
and the rounding always yields a nearest integer (distance at most one
half). -/
theorem c4_all_one_hot_and_colors (colors : List RGB) (_hne : colors ≠ []) :
    (all_one_hot_and_colors colors).2.length = (all_one_hot_and_colors colors).1.length ∧
    (∀ i, i < 2 ^ colors.length →
      (all_one_hot_and_colors colors).2.getD i (0, 0, 0) =
        mixColor colors ((all_one_hot_and_colors colors).1.getD i [])) ∧
    (all_one_hot_and_colors colors).2.getD 0 (0, 0, 0) = (0, 0, 0) ∧
    (∀ j, j < colors.length →
      (all_one_hot_and_colors colors).2.getD (2 ^ j) (0, 0, 0) = colors.getD j (0, 0, 0)) ∧
    (∀ i, i < 2 ^ colors.length → i ≠ 0 →
      (all_one_hot_and_colors colors).2.getD i (0, 0, 0) =
        (roundHalfEven (meanQ ((bitSelectedColors colors i).map (fun c => c.1))),
         roundHalfEven (meanQ ((bitSelectedColors colors i).map (fun c => c.2.1))),
         roundHalfEven (meanQ ((bitSelectedColors colors i).map (fun c => c.2.2))))) ∧
    (∀ q : ℚ, |(roundHalfEven q : ℚ) - q| ≤ 1 / 2) := by
  refine ⟨by simp [all_one_hot_and_colors], all_one_hot_colors_getD colors, ?_, ?_, ?_,
    abs_roundHalfEven_sub⟩
  · rw [all_one_hot_colors_getD colors 0 (Nat.pos_pow_of_pos _ (by norm_num))]
    rw [get_all_one_hots_getD _ 0 (Nat.pos_pow_of_pos _ (by norm_num))]
    unfold mixColor
    rw [if_pos]
    rw [row_sum_zero_iff]
    intro j _
    exact Nat.zero_testBit j
  · intro j hj
    have hpow : 2 ^ j < 2 ^ colors.length := Nat.pow_lt_pow_right (by norm_num) hj
    rw [all_one_hot_colors_getD colors (2 ^ j) hpow]
    rw [get_all_one_hots_getD _ _ hpow]
    rw [mixColor_bits colors (2 ^ j) ⟨j, hj, Nat.testBit_two_pow_self⟩]
    have hsel : bitSelectedColors colors (2 ^ j) = [colors.getD j (0, 0, 0)] := by
      unfold bitSelectedColors
      have : (List.range colors.length).filter (fun k => (2 ^ j).testBit k) =
          (List.range colors.length).filter (fun k => decide (j = k)) := by
        apply List.filter_congr
        intro k _
        rw [Nat.testBit_two_pow]
      rw [this, range_filter_eq_singleton hj]
      rfl
    rw [hsel]
    simp only [List.map_cons, List.map_nil]
    have hm : ∀ z : ℤ, meanQ [z] = (z : ℚ) := by
      intro z
      unfold meanQ
      simp
    rw [hm, hm, hm, roundHalfEven_intCast, roundHalfEven_intCast, roundHalfEven_intCast]
  · intro i hi h0
    rw [all_one_hot_colors_getD colors i hi]
    rw [get_all_one_hots_getD _ _ hi]
    exact mixColor_bits colors i (exists_testBit_of_ne_zero hi h0)

/-- C4, witness: base colors red and blue; the single-bit law at bit 0, the
all-zero row, and the general mixing law at the combined row 3. -/
theorem c4_witness :
    (all_one_hot_and_colors [((255 : ℤ), (0 : ℤ), (0 : ℤ)), (0, 0, 255)]).2.getD 0 (0, 0, 0) =
      (0, 0, 0) ∧
    (all_one_hot_and_colors [((255 : ℤ), (0 : ℤ), (0 : ℤ)), (0, 0, 255)]).2.getD (2 ^ 0) (0, 0, 0) =
      [((255 : ℤ), (0 : ℤ), (0 : ℤ)), (0, 0, 255)].getD 0 (0, 0, 0) ∧
    (all_one_hot_and_colors [((255 : ℤ), (0 : ℤ), (0 : ℤ)), (0, 0, 255)]).2.getD 3 (0, 0, 0) =
      (roundHalfEven (meanQ ((bitSelectedColors [((255 : ℤ), (0 : ℤ), (0 : ℤ)), (0, 0, 255)] 3).map (fun c => c.1))),
       roundHalfEven (meanQ ((bitSelectedColors [((255 : ℤ), (0 : ℤ), (0 : ℤ)), (0, 0, 255)] 3).map (fun c => c.2.1))),
       roundHalfEven (meanQ ((bitSelectedColors [((255 : ℤ), (0 : ℤ), (0 : ℤ)), (0, 0, 255)] 3).map (fun c => c.2.2)))) :=
  ⟨(c4_all_one_hot_and_colors [((255 : ℤ), (0 : ℤ), (0 : ℤ)), (0, 0, 255)] (by decide)).2.2.1,
   (c4_all_one_hot_and_colors [((255 : ℤ), (0 : ℤ), (0 : ℤ)), (0, 0, 255)] (by decide)).2.2.2.1 0 (by decide),
   (c4_all_one_hot_and_colors [((255 : ℤ), (0 : ℤ), (0 : ℤ)), (0, 0, 255)] (by decide)).2.2.2.2.1 3 (by decide) (by decide)⟩

/-- C5: the one-hot value parser fails if and only if either all coerced
values are integral and some value lies outside the pair 0, 1, or not all
values are integral and some value lies outside the closed interval from 0
to 1; on success it returns the coerced values unchanged, hence in the same
order and with the same length. -/
theorem c5_parse_validate_one_hot (l : List ℚ) :
    ((parse_validate_one_hot l).isOk = false ↔
      ((∀ q ∈ l, q.den = 1) ∧ ∃ q ∈ l, q ≠ 0 ∧ q ≠ 1) ∨
      (¬ (∀ q ∈ l, q.den = 1) ∧ ∃ q ∈ l, q < 0 ∨ 1 < q)) ∧
    (∀ res, parse_validate_one_hot l = Except.ok res → res = l) := by
  constructor
  · unfold parse_validate_one_hot is_int_array
    by_cases h1 : l.all (fun q => decide (q.den = 1)) = true
    · rw [if_pos h1]
      simp only [List.all_eq_true, decide_eq_true_eq] at h1
      by_cases h2 : l.any (fun q => decide (q ≠ 0 ∧ q ≠ 1)) = true
      · rw [if_pos h2]
        simp only [List.any_eq_true, decide_eq_true_eq] at h2
        simp only [Except.isOk, Except.toBool, true_iff]
        exact Or.inl ⟨h1, h2⟩
      · rw [if_neg h2]
        simp only [List.any_eq_true, decide_eq_true_eq] at h2
        simp only [Except.isOk, Except.toBool, Bool.true_eq_false, false_iff]
        rintro (⟨_, hex⟩ | ⟨hnall, _⟩)
        · exact h2 hex
        · exact hnall h1
    · rw [if_neg h1]
      simp only [List.all_eq_true, decide_eq_true_eq] at h1
      by_cases h2 : l.any (fun q => decide (q < 0 ∨ 1 < q)) = true
      · rw [if_pos h2]
        simp only [List.any_eq_true, decide_eq_true_eq] at h2
        simp only [Except.isOk, Except.toBool, true_iff]
        exact Or.inr ⟨h1, h2⟩
      · rw [if_neg h2]
        simp only [List.any_eq_true, decide_eq_true_eq] at h2
        simp only [Except.isOk, Except.toBool, Bool.true_eq_false, false_iff]
        rintro (⟨hall, _⟩ | ⟨_, hex⟩)
        · exact h1 hall
        · exact h2 hex
  · intro res h
    unfold parse_validate_one_hot at h
    split_ifs at h
    all_goals
      first
        | exact Except.noConfusion h
        | (injection h with h2; exact h2.symm)

/-- C5, witness: an integral 0-1 vector accepted unchanged, and an integral
vector containing the value 2 rejected. -/
theorem c5_witness :
    ([(0 : ℚ), 1] : List ℚ) = [(0 : ℚ), 1] ∧
    (parse_validate_one_hot [(2 : ℚ)]).isOk = false :=
  ⟨(c5_parse_validate_one_hot [(0 : ℚ), 1]).2 [(0 : ℚ), 1] (by rfl),
   ((c5_parse_validate_one_hot [(2 : ℚ)]).1).mpr
     (Or.inl ⟨by decide, ⟨2, by decide, by decide⟩⟩)⟩

lemma truncQ_int {q : ℚ} (h : q.den = 1) : ((truncQ q : ℤ) : ℚ) = q := by
  have hq : ((q.num : ℤ) : ℚ) = q := (Rat.den_eq_one_iff q).mp h
  have hfl : ⌊q⌋ = q.num := by
    rw [← hq]
    exact Int.floor_intCast q.num
  have hcl : ⌈q⌉ = q.num := by
    rw [← hq]
    exact Int.ceil_intCast q.num
  unfold truncQ
  split_ifs
  · rw [hfl]
    exact hq
  · rw [hcl]
    exact hq

/-- C1, counterexample: a validly constructed mapping whose one_hot_encoding
contains the fractional value one half does not survive the round trip: the
np.int32 cast in to_json truncates one half to zero, so the reconstructed
mapping has a different one_hot_encoding. -/
theorem c1_counterexample :
    mkColorLabels [((0 : ℤ), (0 : ℤ), (0 : ℤ)), (1, 1, 1)]
        (some [[(1 : ℚ) / 2], [(1 : ℚ)]]) none =
      Except.ok (ColorLabels.mk [(0, 0, 0), (1, 1, 1)]
        (some [[(1 : ℚ) / 2], [(1 : ℚ)]]) none none) ∧
    json_round_trip (ColorLabels.mk [((0 : ℤ), (0 : ℤ), (0 : ℤ)), (1, 1, 1)]
        (some [[(1 : ℚ) / 2], [(1 : ℚ)]]) none none) =
      Except.ok (ColorLabels.mk [(0, 0, 0), (1, 1, 1)]
        (some [[(0 : ℚ)], [(1 : ℚ)]]) none none) ∧
    (some [[(1 : ℚ) / 2], [(1 : ℚ)]] : Option (List (List ℚ))) ≠
      some [[(0 : ℚ)], [(1 : ℚ)]] := by
  refine ⟨rfl, ?_, by norm_num⟩
  unfold json_round_trip from_labels_json_file ColorLabels.to_json
  have h1 : truncQ ((1 : ℚ) / 2) = 0 := by
    unfold truncQ
    rw [if_pos (by norm_num)]
    norm_num
  have h2 : truncQ ((1 : ℚ)) = 1 := by
    unfold truncQ
    rw [if_pos (by norm_num)]
    norm_num
  simp only [listTruthy, if_true, Option.getD_some, Option.map_some', List.map_cons,
    List.map_nil, h1, h2]
  rfl

/-- C1, amended: for every validly constructed mapping whose one_hot_encoding
is either absent or non-empty with all values integral, the round trip
through to_json and from_labels_json_file reproduces colors,
one_hot_encoding, and labels exactly.  (Fractional one-hot values are
truncated by the np.int32 cast in to_json, and a present-but-empty
one_hot_encoding is serialized as null, so those cases do not round-trip.) -/
theorem c1_round_trip (colors : List RGB) (enc : Option (List (List ℚ)))
    (labels : Option (List String)) (m : ColorLabels)
    (hm : mkColorLabels colors enc labels = Except.ok m)
    (hint : ∀ row ∈ enc.getD [], ∀ q ∈ row, q.den = 1)
    (hne : enc ≠ some []) :
    ∃ m2, json_round_trip m = Except.ok m2 ∧ m2.colors = m.colors ∧
      m2.one_hot_encoding = m.one_hot_encoding ∧ m2.labels = m.labels := by
  obtain ⟨hm_eq, _, _⟩ := mkColorLabels_ok hm
  subst hm_eq
  suffices h : json_round_trip (ColorLabels.mk colors enc labels (logLabelsOf enc labels)) =
      Except.ok (ColorLabels.mk colors enc labels (logLabelsOf enc labels)) by
    exact ⟨_, h, rfl, rfl, rfl⟩
  unfold json_round_trip from_labels_json_file ColorLabels.to_json
  cases enc with
  | none =>
    simpa [listTruthy] using hm
  | some rows =>
    cases rows with
    | nil => exact absurd rfl hne
    | cons r0 rest =>
      have htr : listTruthy (some (r0 :: rest)) = true := rfl
      simp only [Option.getD_some] at hint
      simp only [htr, if_true, Option.getD_some, Option.map_some']
      have hrows : ((r0 :: rest).map (fun row => row.map truncQ)).map
          (fun row => row.map (fun (z : ℤ) => (z : ℚ))) = r0 :: rest := by
        rw [List.map_map]
        have hcongr : ∀ row ∈ r0 :: rest,
            ((fun (row : List ℤ) => row.map (fun (z : ℤ) => (z : ℚ))) ∘
              (fun (row : List ℚ) => row.map truncQ)) row = row := by
          intro row hrow
          simp only [Function.comp_apply, List.map_map]
          have hq : ∀ q ∈ row, ((fun (z : ℤ) => (z : ℚ)) ∘ truncQ) q = q := by
            intro q hqm
            exact truncQ_int (hint row hrow q hqm)
          rw [List.map_congr_left hq]
          simp
        rw [List.map_congr_left hcongr]
        simp
      rw [hrows]
      exact hm

/-- C1, witness: a mapping with an integral one-hot encoding and a label list
round-trips exactly. -/
theorem c1_witness :
    ∃ m2, json_round_trip (ColorLabels.mk [((0 : ℤ), (0 : ℤ), (0 : ℤ)), (255, 0, 0)]
        (some [[(0 : ℚ)], [(1 : ℚ)]]) (some ["red"]) (some ["background", "red"])) =
        Except.ok m2 ∧
      m2.colors = (ColorLabels.mk [((0 : ℤ), (0 : ℤ), (0 : ℤ)), (255, 0, 0)]
        (some [[(0 : ℚ)], [(1 : ℚ)]]) (some ["red"]) (some ["background", "red"])).colors ∧
      m2.one_hot_encoding = (ColorLabels.mk [((0 : ℤ), (0 : ℤ), (0 : ℤ)), (255, 0, 0)]
        (some [[(0 : ℚ)], [(1 : ℚ)]]) (some ["red"]) (some ["background", "red"])).one_hot_encoding ∧
      m2.labels = (ColorLabels.mk [((0 : ℤ), (0 : ℤ), (0 : ℤ)), (255, 0, 0)]
        (some [[(0 : ℚ)], [(1 : ℚ)]]) (some ["red"]) (some ["background", "red"])).labels :=
  c1_round_trip [((0 : ℤ), (0 : ℤ), (0 : ℤ)), (255, 0, 0)] (some [[(0 : ℚ)], [(1 : ℚ)]])
    (some ["red"])
    (ColorLabels.mk [((0 : ℤ), (0 : ℤ), (0 : ℤ)), (255, 0, 0)]
      (some [[(0 : ℚ)], [(1 : ℚ)]]) (some ["red"]) (some ["background", "red"]))
    (by rfl) (by decide) (by decide)

lemma mapExcept_ok_length {α β : Type} {f : α → Except String β} :
    ∀ {l : List α} {res : List β}, mapExcept f l = Except.ok res → res.length = l.length := by
  intro l
  induction l with
  | nil =>
    intro res h
    injection h with h2
    rw [← h2]
    rfl
  | cons a t ih =>
    intro res h
    unfold mapExcept at h
    cases hfa : f a with
    | error e =>
      rw [hfa] at h
      exact Except.noConfusion h
    | ok b =>
      rw [hfa] at h
      cases hft : mapExcept f t with
      | error e =>
        simp only [Bind.bind, Except.bind, hft] at h
        exact Except.noConfusion h
      | ok bs =>
        simp only [Bind.bind, Except.bind, hft, pure, Except.pure] at h
        injection h with h2
        rw [← h2]
        simp [ih hft]

/-- C8, counterexample: with an empty color list and an empty (matching
length) labels list, from_colors succeeds but leaves the labels empty,
instead of producing the claimed background label: the Python guard
`if labels:` treats the empty list as falsy and skips the prepend. -/
theorem c8_counterexample :
    from_colors [] (some []) =
      Except.ok (ColorLabels.mk [((0 : ℤ), (0 : ℤ), (0 : ℤ))] none (some []) none) ∧
    (ColorLabels.mk [((0 : ℤ), (0 : ℤ), (0 : ℤ))] none (some []) none).labels ≠
      some ["background"] :=
  ⟨rfl, by decide⟩

/-- C8, amended: for every list of color specifications that all parse and
every NON-EMPTY label list of matching length, from_colors returns a
non-multilabel mapping whose colors are black followed by the parsed colors
in order and whose labels are the background label followed by the input
labels in order.  (With an empty labels list the prepend is skipped.) -/
theorem c8_from_colors (cs : List ColorSpec) (ls : List String) (parsed : List RGB)
    (hp : mapExcept parse_and_validate_color cs = Except.ok parsed)
    (hlen : cs.length = ls.length) (_hne : ls ≠ []) :
    ∃ m, from_colors cs (some ls) = Except.ok m ∧
      m.colors = ((0, 0, 0) : RGB) :: parsed ∧
      m.labels = some ("background" :: ls) ∧
      m.multilabel = false := by
  have hltr : listTruthy (some ls) = true := by
    cases ls with
    | nil => exact absurd rfl _hne
    | cons a t => rfl
  refine ⟨ColorLabels.mk (((0, 0, 0) : RGB) :: parsed) none (some ("background" :: ls))
    (logLabelsOf none (some ("background" :: ls))), ?_, rfl, rfl, rfl⟩
  unfold from_colors
  rw [hp]
  simp only [Bind.bind, Except.bind, hltr, if_true, Option.getD_some]
  apply mkColorLabels_eq_ok
  · intro ht
    exact absurd ht (by simp [listTruthy])
  · intro _
    simp only [num_classes_of, Option.getD_some, List.length_cons]
    rw [mapExcept_ok_length hp, hlen]

/-- C8, witness: the two hex colors of the claim with labels red and green. -/
theorem c8_witness :
    ∃ m, from_colors [ColorSpec.hex "#FF0000", ColorSpec.hex "#00FF00"]
        (some ["red", "green"]) = Except.ok m ∧
      m.colors = [((0 : ℤ), (0 : ℤ), (0 : ℤ)), (255, 0, 0), (0, 255, 0)] ∧
      m.labels = some ["background", "red", "green"] ∧
      m.multilabel = false := by
  obtain ⟨m, h1, h2, h3, h4⟩ := c8_from_colors
    [ColorSpec.hex "#FF0000", ColorSpec.hex "#00FF00"] ["red", "green"]
    [(255, 0, 0), (0, 255, 0)] (by rfl) (by decide) (by decide)
  exact ⟨m, h1, by rw [h2], h3, h4⟩

lemma except_bind_ok {ε α β : Type} {e : Except ε α} {f : α → Except ε β} {b : β}
    (h : e >>= f = Except.ok b) : ∃ a, e = Except.ok a ∧ f a = Except.ok b := by
  cases e with
  | error s => exact Except.noConfusion h
  | ok a => exact ⟨a, rfl, h⟩

lemma parse_one_hot_ok_eq {v oh : List ℚ} (h : parse_validate_one_hot v = Except.ok oh) :
    oh = v := by
  unfold parse_validate_one_hot at h
  split_ifs at h
  all_goals
    first
      | exact Except.noConfusion h
      | (injection h with h2; exact h2.symm)

lemma stepOneHot_ok {st : FLState} {r : LabelRecord} {st1 : FLState}
    (h : stepOneHot st r = Except.ok st1) :
    st1.labels = st.labels ∧ st1.has_labels = st.has_labels ∧
    st1.colors.length = st.colors.length + 1 ∧ st1.has_one_hot ≠ none ∧
    (r.one_hot = none → st1.enc = st.enc ∧ st1.one_hot_size = st.one_hot_size ∧
      st1.has_one_hot = some false) ∧
    (∀ v, r.one_hot = some v → st1.has_one_hot = some true ∧
      st1.one_hot_size = some v.length ∧
      (∀ s, st.one_hot_size = some s → s = v.length) ∧
      ((st.has_one_hot = none → st.enc = none) →
        (st1.enc.getD []).length = (st.enc.getD []).length + 1)) := by
  obtain ⟨scs, senc, slb, shoh, shlb, ssz⟩ := st
  obtain ⟨rc, roh, rlab⟩ := r
  cases rc with
  | none => exact Except.noConfusion h
  | some cspec =>
    unfold stepOneHot at h
    simp only [] at h
    cases hpc : parse_and_validate_color cspec with
    | error e =>
      rw [hpc] at h
      exact Except.noConfusion h
    | ok c =>
      rw [hpc] at h
      simp only [Bind.bind, Except.bind] at h
      cases roh with
      | none =>
        injection h with h2
        subst h2
        refine ⟨rfl, rfl, by simp, by simp, fun _ => ⟨rfl, rfl, rfl⟩,
          fun v hv => Option.noConfusion hv⟩
      | some raw =>
        simp only [] at h
        cases hp : parse_validate_one_hot raw with
        | error e =>
          rw [hp] at h
          exact Except.noConfusion h
        | ok oh =>
          have hoveq : oh = raw := parse_one_hot_ok_eq hp
          subst hoveq
          rw [hp] at h
          simp only [Bind.bind, Except.bind] at h
          by_cases hh : shoh = (none : Option Bool)
          · subst hh
            rw [if_pos rfl] at h
            simp only [] at h
            by_cases hs : ssz = (none : Option ℕ)
            · subst hs
              rw [if_pos rfl] at h
              simp only [] at h
              rw [if_neg (by simp)] at h
              rw [if_neg (by simp)] at h
              injection h with h2
              subst h2
              refine ⟨rfl, rfl, by simp, by simp, fun hc => Option.noConfusion hc,
                fun v hv => ?_⟩
              injection hv with hv2
              subst hv2
              refine ⟨rfl, rfl, fun s hs2 => Option.noConfusion hs2, fun hpre => ?_⟩
              have he : senc = none := hpre rfl
              subst he
              simp
            · rw [if_neg hs] at h
              simp only [] at h
              rw [if_neg (by simp)] at h
              by_cases hsz : ssz ≠ some oh.length
              · rw [if_pos hsz] at h
                exact Except.noConfusion h
              · rw [if_neg hsz] at h
                push_neg at hsz
                injection h with h2
                subst h2
                refine ⟨rfl, rfl, by simp, by simp, fun hc => Option.noConfusion hc,
                  fun v hv => ?_⟩
                injection hv with hv2
                subst hv2
                refine ⟨rfl, by rw [hsz], fun s hs2 => ?_, fun hpre => ?_⟩
                · have hs2b : ssz = some s := hs2
                  rw [hsz] at hs2b
                  injection hs2b with h3
                  exact h3.symm
                · have he : senc = none := hpre rfl
                  subst he
                  simp
          · rw [if_neg hh] at h
            simp only [] at h
            cases shoh with
            | none => exact absurd rfl hh
            | some b =>
              cases b with
              | false =>
                by_cases hs : ssz = (none : Option ℕ)
                · subst hs
                  rw [if_pos rfl] at h
                  simp only [] at h
                  rw [if_pos trivial] at h
                  exact Except.noConfusion h
                · rw [if_neg hs] at h
                  simp only [] at h
                  rw [if_pos trivial] at h
                  exact Except.noConfusion h
              | true =>
                by_cases hs : ssz = (none : Option ℕ)
                · subst hs
                  rw [if_pos rfl] at h
                  simp only [] at h
                  rw [if_neg (by simp)] at h
                  rw [if_neg (by simp)] at h
                  injection h with h2
                  subst h2
                  refine ⟨rfl, rfl, by simp, by simp, fun hc => Option.noConfusion hc,
                    fun v hv => ?_⟩
                  injection hv with hv2
                  subst hv2
                  exact ⟨rfl, rfl, fun s hs2 => Option.noConfusion hs2, fun hpre => by simp⟩
                · rw [if_neg hs] at h
                  simp only [] at h
                  rw [if_neg (by simp)] at h
                  by_cases hsz : ssz ≠ some oh.length
                  · rw [if_pos hsz] at h
                    exact Except.noConfusion h
                  · rw [if_neg hsz] at h
                    push_neg at hsz
                    injection h with h2
                    subst h2
                    refine ⟨rfl, rfl, by simp, by simp, fun hc => Option.noConfusion hc,
                      fun v hv => ?_⟩
                    injection hv with hv2
                    subst hv2
                    refine ⟨rfl, by rw [hsz], fun s hs2 => ?_, fun hpre => by simp⟩
                    have hs2b : ssz = some s := hs2
                    rw [hsz] at hs2b
                    injection hs2b with h3
                    exact h3.symm

lemma stepLabel_ok {st : FLState} {r : LabelRecord} {st2 : FLState}
    (h : stepLabel st r = Except.ok st2) :
    st2.colors = st.colors ∧ st2.enc = st.enc ∧ st2.has_one_hot = st.has_one_hot ∧
    st2.one_hot_size = st.one_hot_size ∧
    (r.label = none → st2.labels = st.labels ∧ st2.has_labels = some false) ∧
    (∀ lab, r.label = some lab → st2.has_labels = some true ∧
      st.has_labels ≠ some false ∧
      (st.has_labels = none → st2.labels = some [lab]) ∧
      (st.has_labels = some true → st2.labels = some (st.labels.getD [] ++ [lab]))) := by
  obtain ⟨scs, senc, slb, shoh, shlb, ssz⟩ := st
  obtain ⟨rc, roh, rlab⟩ := r
  cases rlab with
  | none =>
    unfold stepLabel at h
    simp only [] at h
    injection h with h2
    subst h2
    exact ⟨rfl, rfl, rfl, rfl, fun _ => ⟨rfl, rfl⟩, fun lab hlab => Option.noConfusion hlab⟩
  | some lab =>
    unfold stepLabel at h
    simp only [] at h
    by_cases hhl : shlb = (none : Option Bool)
    · subst hhl
      rw [if_pos rfl] at h
      simp only [] at h
      rw [if_neg (by simp)] at h
      injection h with h2
      subst h2
      refine ⟨rfl, rfl, rfl, rfl, fun hn => Option.noConfusion hn, fun lab2 hlab2 => ?_⟩
      injection hlab2 with hlab3
      subst hlab3
      exact ⟨rfl, by simp, fun _ => rfl, fun ht => Option.noConfusion ht⟩
    · rw [if_neg hhl] at h
      simp only [] at h
      cases shlb with
      | none => exact absurd rfl hhl
      | some b =>
        cases b with
        | false =>
          rw [if_pos rfl] at h
          exact Except.noConfusion h
        | true =>
          rw [if_neg (by simp)] at h
          injection h with h2
          subst h2
          refine ⟨rfl, rfl, rfl, rfl, fun hn => Option.noConfusion hn, fun lab2 hlab2 => ?_⟩
          injection hlab2 with hlab3
          subst hlab3
          exact ⟨rfl, by simp, fun hn => Option.noConfusion hn, fun _ => rfl⟩

lemma stepRecord_ok {st : FLState} {r : LabelRecord} {st2 : FLState}
    (h : stepRecord st r = Except.ok st2) :
    ∃ st1, stepOneHot st r = Except.ok st1 ∧ stepLabel st1 r = Except.ok st2 := by
  unfold stepRecord at h
  exact except_bind_ok h

lemma flocLoop_ok_facts : ∀ {rs : List LabelRecord} {st fin : FLState},
    flocLoop st rs = Except.ok fin →
    (st.has_one_hot = none → st.enc = none) →
    fin.colors.length = st.colors.length + rs.length ∧
    (fin.enc.getD []).length =
      (st.enc.getD []).length + rs.countP (fun r => r.one_hot.isSome) ∧
    (∀ s, st.one_hot_size = some s → fin.one_hot_size = some s) ∧
    (∀ r ∈ rs, ∀ v, r.one_hot = some v → fin.one_hot_size = some v.length) := by
  intro rs
  induction rs with
  | nil =>
    intro st fin h _
    injection h with h2
    subst h2
    exact ⟨by simp, by simp, fun s hs => hs, fun r hr => absurd hr (List.not_mem_nil r)⟩
  | cons r rs ih =>
    intro st fin h hinv
    unfold flocLoop at h
    obtain ⟨st2, hstep, hloop⟩ := except_bind_ok h
    obtain ⟨st1, h1, h2⟩ := stepRecord_ok hstep
    obtain ⟨hlb1, hhl1, hc1, hne1, hnone1, hsome1⟩ := stepOneHot_ok h1
    obtain ⟨hc2, he2, hh2, hs2, _, _⟩ := stepLabel_ok h2
    have hinv2 : st2.has_one_hot = none → st2.enc = none := by
      intro hzero
      rw [hh2] at hzero
      exact absurd hzero hne1
    obtain ⟨ihc, ihe, ihmono, ihall⟩ := ih hloop hinv2
    refine ⟨?_, ?_, ?_, ?_⟩
    · rw [ihc, hc2, hc1]
      simp only [List.length_cons]
      omega
    · rw [ihe, he2, List.countP_cons]
      cases hro : r.one_hot with
      | none =>
        obtain ⟨henc, _, _⟩ := hnone1 hro
        rw [henc]
        simp [hro]
      | some v =>
        obtain ⟨_, _, _, hcount⟩ := hsome1 v hro
        rw [hcount hinv]
        simp [hro, Option.isSome]
        omega
    · intro s hs
      apply ihmono
      rw [hs2]
      cases hro : r.one_hot with
      | none =>
        obtain ⟨_, hsz, _⟩ := hnone1 hro
        rw [hsz]
        exact hs
      | some v =>
        obtain ⟨_, hsz, hagree, _⟩ := hsome1 v hro
        rw [hsz, hagree s hs]
    · intro r2 hr2 v hv
      rcases List.mem_cons.mp hr2 with heq | hmem
      · subst heq
        obtain ⟨_, hsz, _, _⟩ := hsome1 v hv
        apply ihmono
        rw [hs2, hsz]
      · exact ihall r2 hmem v hv

/-- Inversion of a successful from_list_of_color_labels call. -/
lemma from_list_ok {rs : List LabelRecord} {ls : Option (List String)} {m : ColorLabels}
    (h : from_list_of_color_labels rs ls = Except.ok m) :
    ∃ fin, flocLoop ⟨[], none, ls, none, none, none⟩ rs = Except.ok fin ∧
      mkColorLabels fin.colors fin.enc fin.labels = Except.ok m := by
  unfold from_list_of_color_labels at h
  exact except_bind_ok h

/-- C2: if one-hot presence is inconsistent across the records (in either
order of appearance), or two records carry one-hot vectors of different
lengths, then from_list_of_color_labels fails with a ValidationError
(either through the in-loop checks or through the row-count check of the
constructor). -/
theorem c2_inconsistent_one_hot (rs : List LabelRecord) (ls : Option (List String))
    (h : ((∃ r ∈ rs, r.one_hot ≠ none) ∧ (∃ r ∈ rs, r.one_hot = none)) ∨
      (∃ r ∈ rs, ∃ r2 ∈ rs, ∃ v v2, r.one_hot = some v ∧ r2.one_hot = some v2 ∧
        v.length ≠ v2.length)) :
    ∃ e, from_list_of_color_labels rs ls = Except.error e := by
  cases hv : from_list_of_color_labels rs ls with
  | error e => exact ⟨e, rfl⟩
  | ok m =>
    exfalso
    obtain ⟨fin, hloop, hmk⟩ := from_list_ok hv
    obtain ⟨hcols, henc, _, hsz⟩ := flocLoop_ok_facts hloop (fun _ => rfl)
    simp only [List.length_nil, Option.getD_none, Nat.zero_add] at hcols henc
    obtain ⟨_, hch1, _⟩ := mkColorLabels_ok hmk
    rcases h with ⟨⟨r1, hr1, hone⟩, ⟨r2, hr2, hnone⟩⟩ | ⟨r1, hr1, r2, hr2, v1, v2, hv1, hv2, hlen⟩
    · have hpos : 0 < rs.countP (fun r => r.one_hot.isSome) :=
        List.countP_pos_iff.mpr ⟨r1, hr1, Option.isSome_iff_ne_none.mpr hone⟩
      have hrows : 0 < (fin.enc.getD []).length := by omega
      have htr : listTruthy fin.enc = true := by
        cases he2 : fin.enc with
        | none => rw [he2] at hrows; simp at hrows
        | some l =>
          cases l with
          | nil => rw [he2] at hrows; simp at hrows
          | cons a t => rfl
      have hceq := hch1 htr
      have hallone : ∀ r ∈ rs, (fun r => r.one_hot.isSome) r = true :=
        List.countP_eq_length.mp (by omega)
      have hb := hallone r2 hr2
      simp only [] at hb
      rw [hnone] at hb
      exact Bool.noConfusion hb
    · have h1 := hsz r1 hr1 v1 hv1
      have h2 := hsz r2 hr2 v2 hv2
      rw [h1] at h2
      injection h2 with h3
      exact hlen h3

/-- C2, witness: two records, the first with a one-hot vector, the second
without, are rejected. -/
theorem c2_witness :
    ∃ e, from_list_of_color_labels
      [LabelRecord.mk (some (ColorSpec.rgb (1, 2, 3))) (some [1]) none,
       LabelRecord.mk (some (ColorSpec.rgb (4, 5, 6))) none none] none =
        Except.error e :=
  c2_inconsistent_one_hot
    [LabelRecord.mk (some (ColorSpec.rgb (1, 2, 3))) (some [1]) none,
     LabelRecord.mk (some (ColorSpec.rgb (4, 5, 6))) none none] none
    (Or.inl ⟨⟨LabelRecord.mk (some (ColorSpec.rgb (1, 2, 3))) (some [1]) none,
        by simp, by simp⟩,
      ⟨LabelRecord.mk (some (ColorSpec.rgb (4, 5, 6))) none none, by simp, rfl⟩⟩)

lemma flocLoop_ok_labels : ∀ {rs : List LabelRecord} {st fin : FLState},
    flocLoop st rs = Except.ok fin →
    (st.has_labels = some false → fin.labels = st.labels ∧ ∀ r ∈ rs, r.label = none) ∧
    (st.has_labels = some true → ∀ acc, st.labels = some acc →
      fin.labels = some (acc ++ rs.filterMap (fun r => r.label))) ∧
    (st.has_labels = none →
      ((∀ r ∈ rs, r.label = none) ∧ fin.labels = st.labels) ∨
      ((∃ r ∈ rs, r.label ≠ none) ∧
        fin.labels = some (rs.filterMap (fun r => r.label)))) := by
  intro rs
  induction rs with
  | nil =>
    intro st fin h
    injection h with h2
    subst h2
    exact ⟨fun _ => ⟨rfl, fun r hr => absurd hr (List.not_mem_nil r)⟩,
      fun _ acc hacc => by simp [hacc],
      fun _ => Or.inl ⟨fun r hr => absurd hr (List.not_mem_nil r), rfl⟩⟩
  | cons r rs ih =>
    intro st fin h
    unfold flocLoop at h
    obtain ⟨st2, hstep, hloop⟩ := except_bind_ok h
    obtain ⟨st1, h1, h2⟩ := stepRecord_ok hstep
    obtain ⟨hlb1, hhl1, _, _, _, _⟩ := stepOneHot_ok h1
    obtain ⟨_, _, _, _, hnone2, hsome2⟩ := stepLabel_ok h2
    obtain ⟨ihf, iht, _⟩ := ih hloop
    refine ⟨?_, ?_, ?_⟩
    · intro hf
      cases hrl : r.label with
      | some lab =>
        obtain ⟨_, hne, _, _⟩ := hsome2 lab hrl
        rw [hhl1, hf] at hne
        exact absurd rfl hne
      | none =>
        obtain ⟨hlb2, hhl2⟩ := hnone2 hrl
        obtain ⟨hfin, hall⟩ := ihf hhl2
        refine ⟨by rw [hfin, hlb2, hlb1], ?_⟩
        intro r2 hr2
        rcases List.mem_cons.mp hr2 with heq | hmem
        · subst heq
          exact hrl
        · exact hall r2 hmem
    · intro ht acc hacc
      cases hrl : r.label with
      | none =>
        obtain ⟨hlb2, hhl2⟩ := hnone2 hrl
        obtain ⟨hfin, hall⟩ := ihf hhl2
        have hfil : rs.filterMap (fun r => r.label) = [] :=
          List.filterMap_eq_nil_iff.mpr hall
        rw [hfin, hlb2, hlb1, hacc, List.filterMap_cons]
        simp [hrl, hfil]
      | some lab =>
        obtain ⟨hhl2, _, _, htrue⟩ := hsome2 lab hrl
        have hlb2 := htrue (by rw [hhl1]; exact ht)
        rw [hlb1, hacc] at hlb2
        simp only [Option.getD_some] at hlb2
        have hfin := iht hhl2 (acc ++ [lab]) hlb2
        rw [hfin, List.filterMap_cons]
        simp [hrl]
    · intro hn
      cases hrl : r.label with
      | none =>
        obtain ⟨hlb2, hhl2⟩ := hnone2 hrl
        obtain ⟨hfin, hall⟩ := ihf hhl2
        refine Or.inl ⟨?_, by rw [hfin, hlb2, hlb1]⟩
        intro r2 hr2
        rcases List.mem_cons.mp hr2 with heq | hmem
        · subst heq
          exact hrl
        · exact hall r2 hmem
      | some lab =>
        obtain ⟨hhl2, _, hreset, _⟩ := hsome2 lab hrl
        have hlb2 := hreset (by rw [hhl1]; exact hn)
        have hfin := iht hhl2 [lab] hlb2
        refine Or.inr ⟨⟨r, List.mem_cons_self r rs, by rw [hrl]; simp⟩, ?_⟩
        rw [hfin, List.filterMap_cons]
        simp [hrl]

/-- Replacing the labels bookkeeping fields of a loop state. -/
def FLState.setLB (st : FLState) (l : Option (List String)) (hb : Option Bool) : FLState :=
  { st with labels := l, has_labels := hb }

lemma stepOneHot_setLB (st : FLState) (r : LabelRecord) (l : Option (List String))
    (hb : Option Bool) :
    stepOneHot (st.setLB l hb) r = (stepOneHot st r).map (fun s => s.setLB l hb) := by
  obtain ⟨scs, senc, slb, shoh, shlb, ssz⟩ := st
  obtain ⟨rc, roh, rlab⟩ := r
  cases rc with
  | none => rfl
  | some cspec =>
    unfold stepOneHot FLState.setLB
    simp only []
    cases parse_and_validate_color cspec with
    | error e => rfl
    | ok c =>
      simp only [Bind.bind, Except.bind]
      cases roh with
      | none => rfl
      | some raw =>
        simp only []
        by_cases hh : shoh = (none : Option Bool)
        · rw [if_pos hh, if_pos hh]
          simp only []
          cases parse_validate_one_hot raw with
          | error e => rfl
          | ok oh =>
            simp only [Bind.bind, Except.bind]
            by_cases hs : ssz = (none : Option ℕ)
            · rw [if_pos hs, if_pos hs]
              simp only []
              rw [if_neg (show ¬(some oh.length ≠ some oh.length) by simp),
                if_neg (show ¬(some oh.length ≠ some oh.length) by simp)]
              rfl
            · rw [if_neg hs, if_neg hs]
              simp only []
              by_cases hsz : ssz ≠ some oh.length
              · rw [if_pos hsz, if_pos hsz]
                rfl
              · rw [if_neg hsz, if_neg hsz]
                rfl
        · rw [if_neg hh, if_neg hh]
          simp only []
          cases parse_validate_one_hot raw with
          | error e => rfl
          | ok oh =>
            simp only [Bind.bind, Except.bind]
            by_cases hs : ssz = (none : Option ℕ)
            · rw [if_pos hs, if_pos hs]
              simp only []
              by_cases hf : shoh = some false
              · rw [if_pos hf, if_pos hf]
                rfl
              · rw [if_neg hf, if_neg hf]
                rw [if_neg (show ¬(some oh.length ≠ some oh.length) by simp),
                  if_neg (show ¬(some oh.length ≠ some oh.length) by simp)]
                rfl
            · rw [if_neg hs, if_neg hs]
              simp only []
              by_cases hf : shoh = some false
              · rw [if_pos hf, if_pos hf]
                rfl
              · rw [if_neg hf, if_neg hf]
                by_cases hsz : ssz ≠ some oh.length
                · rw [if_pos hsz, if_pos hsz]
                  rfl
                · rw [if_neg hsz, if_neg hsz]
                  rfl

lemma stepLabel_setLB_false (s : FLState) (r : LabelRecord) (l : Option (List String)) :
    stepLabel (s.setLB l (some false)) r =
      match r.label with
      | some _ => Except.error "Some labels have a name, others not."
      | none => Except.ok (s.setLB l (some false)) := by
  obtain ⟨scs, senc, slb, shoh, shlb, ssz⟩ := s
  obtain ⟨rc, roh, rlab⟩ := r
  cases rlab with
  | none => rfl
  | some lab => rfl

lemma stepLabel_setLB_none (s : FLState) (r : LabelRecord) (l : Option (List String)) :
    stepLabel (s.setLB l none) r =
      match r.label with
      | some lab => Except.ok (s.setLB (some [lab]) (some true))
      | none => Except.ok (s.setLB l (some false)) := by
  obtain ⟨scs, senc, slb, shoh, shlb, ssz⟩ := s
  obtain ⟨rc, roh, rlab⟩ := r
  cases rlab with
  | none => rfl
  | some lab => rfl

lemma flocLoop_false_indep : ∀ (rs : List LabelRecord) (st : FLState)
    (l1 l2 : Option (List String)), (∃ r ∈ rs, r.label ≠ none) →
    flocLoop (st.setLB l1 (some false)) rs = flocLoop (st.setLB l2 (some false)) rs := by
  intro rs
  induction rs with
  | nil =>
    intro st l1 l2 h
    obtain ⟨r, hr, _⟩ := h
    exact absurd hr (List.not_mem_nil r)
  | cons r rs ih =>
    intro st l1 l2 hex
    unfold flocLoop stepRecord
    rw [stepOneHot_setLB st r l1 (some false), stepOneHot_setLB st r l2 (some false)]
    cases hso : stepOneHot st r with
    | error e => rfl
    | ok s =>
      simp only [Except.map, Bind.bind, Except.bind]
      rw [stepLabel_setLB_false s r l1, stepLabel_setLB_false s r l2]
      cases hrl : r.label with
      | some lab => rfl
      | none =>
        simp only []
        apply ih
        obtain ⟨r2, hr2, hlab2⟩ := hex
        rcases List.mem_cons.mp hr2 with heq | hmem
        · subst heq
          exact absurd hrl hlab2
        · exact ⟨r2, hmem, hlab2⟩

lemma flocLoop_init_indep (rs : List LabelRecord) (l1 l2 : Option (List String))
    (hex : ∃ r ∈ rs, r.label ≠ none) :
    flocLoop ⟨[], none, l1, none, none, none⟩ rs =
      flocLoop ⟨[], none, l2, none, none, none⟩ rs := by
  show flocLoop (FLState.setLB ⟨[], none, none, none, none, none⟩ l1 none) rs =
    flocLoop (FLState.setLB ⟨[], none, none, none, none, none⟩ l2 none) rs
  cases rs with
  | nil =>
    obtain ⟨r, hr, _⟩ := hex
    exact absurd hr (List.not_mem_nil r)
  | cons r rs =>
    unfold flocLoop stepRecord
    rw [stepOneHot_setLB ⟨[], none, none, none, none, none⟩ r l1 none,
      stepOneHot_setLB ⟨[], none, none, none, none, none⟩ r l2 none]
    cases hso : stepOneHot ⟨[], none, none, none, none, none⟩ r with
    | error e => rfl
    | ok s =>
      simp only [Except.map, Bind.bind, Except.bind]
      rw [stepLabel_setLB_none s r l1, stepLabel_setLB_none s r l2]
      cases hrl : r.label with
      | some lab => rfl
      | none =>
        simp only []
        apply flocLoop_false_indep
        obtain ⟨r2, hr2, hlab2⟩ := hex
        rcases List.mem_cons.mp hr2 with heq | hmem
        · subst heq
          exact absurd hrl hlab2
        · exact ⟨r2, hmem, hlab2⟩

/-- C10: whenever at least one record has a label entry, the caller-supplied
labels argument is discarded: the entire result of
from_list_of_color_labels does not depend on it, and on success the labels
are exactly those collected from the records; the caller-supplied argument
ends up in the result only when no record has a label entry. -/
theorem c10_labels_argument (rs : List LabelRecord) (ls1 ls2 : Option (List String)) :
    ((∃ r ∈ rs, r.label ≠ none) →
      from_list_of_color_labels rs ls1 = from_list_of_color_labels rs ls2 ∧
      (∀ m, from_list_of_color_labels rs ls1 = Except.ok m →
        m.labels = some (rs.filterMap (fun r => r.label)))) ∧
    ((∀ r ∈ rs, r.label = none) →
      ∀ m, from_list_of_color_labels rs ls1 = Except.ok m → m.labels = ls1) := by
  constructor
  · intro hex
    constructor
    · unfold from_list_of_color_labels
      rw [flocLoop_init_indep rs ls1 ls2 hex]
    · intro m hm
      obtain ⟨fin, hloop, hmk⟩ := from_list_ok hm
      obtain ⟨_, _, ihn⟩ := flocLoop_ok_labels hloop
      rcases ihn rfl with ⟨hall, _⟩ | ⟨_, hfin⟩
      · obtain ⟨r, hr, hlab⟩ := hex
        exact absurd (hall r hr) hlab
      · obtain ⟨hmeq, _, _⟩ := mkColorLabels_ok hmk
        rw [hmeq]
        exact hfin
  · intro hall m hm
    obtain ⟨fin, hloop, hmk⟩ := from_list_ok hm
    obtain ⟨_, _, ihn⟩ := flocLoop_ok_labels hloop
    rcases ihn rfl with ⟨_, hfin⟩ | ⟨⟨r, hr, hlab⟩, _⟩
    · obtain ⟨hmeq, _, _⟩ := mkColorLabels_ok hmk
      rw [hmeq]
      exact hfin
    · exact absurd (hall r hr) hlab

/-- C10, witness: one labeled record; the caller-supplied labels argument
does not influence the result, and the resulting labels come from the
record. -/
theorem c10_witness :
    from_list_of_color_labels
        [LabelRecord.mk (some (ColorSpec.rgb (1, 2, 3))) none (some "a")] (some ["zzz"]) =
      from_list_of_color_labels
        [LabelRecord.mk (some (ColorSpec.rgb (1, 2, 3))) none (some "a")] none ∧
    (∀ m, from_list_of_color_labels
        [LabelRecord.mk (some (ColorSpec.rgb (1, 2, 3))) none (some "a")] (some ["zzz"]) =
          Except.ok m → m.labels = some ["a"]) :=
  (c10_labels_argument
    [LabelRecord.mk (some (ColorSpec.rgb (1, 2, 3))) none (some "a")]
    (some ["zzz"]) none).1
    ⟨LabelRecord.mk (some (ColorSpec.rgb (1, 2, 3))) none (some "a"), by simp, by simp⟩

lemma zip_self_filter_map {α : Type} (l : List α) (p : α → Bool) :
    ((l.zip l).filter (fun x => p x.1)).map Prod.snd = l.filter p := by
  induction l with
  | nil => rfl
  | cons a t ih =>
    rw [List.zip_cons_cons, List.filter_cons, List.filter_cons]
    by_cases hpa : p a
    · simp only [hpa, if_true, List.map_cons, ih]
    · simp only [hpa, Bool.false_eq_true, if_false, ih]

lemma filter_range_zip {α β : Type} : ∀ (l1 : List α) (l2 : List β) (d1 : α) (d2 : β)
    (p : α → Bool), l1.length = l2.length →
    (((List.range l1.length).filter (fun i => p (l1.getD i d1))).map
      (fun i => l2.getD i d2)) =
      ((l1.zip l2).filter (fun x => p x.1)).map Prod.snd := by
  intro l1
  induction l1 with
  | nil =>
    intro l2 d1 d2 p h
    simp
  | cons a t ih =>
    intro l2 d1 d2 p h
    cases l2 with
    | nil => simp at h
    | cons b t2 =>
      simp only [List.length_cons] at h
      have ht : t.length = t2.length := by omega
      rw [List.length_cons, List.range_succ_eq_map, List.filter_cons]
      simp only [List.getD_cons_zero]
      rw [List.filter_map]
      have hcmp : (List.range t.length).filter
            ((fun i => p ((a :: t).getD i d1)) ∘ Nat.succ) =
          (List.range t.length).filter (fun i => p (t.getD i d1)) := by
        apply List.filter_congr
        intro i _
        simp [Function.comp]
      rw [hcmp]
      rw [List.zip_cons_cons, List.filter_cons]
      by_cases hpa : p a
      · simp only [hpa, if_true, List.map_cons, List.map_map, List.getD_cons_zero]
        congr 1
        have := ih t2 d1 d2 p ht
        rw [← this]
        apply List.map_congr_left
        intro i _
        simp [Function.comp]
      · simp only [hpa, Bool.false_eq_true, if_false, List.map_map]
        have := ih t2 d1 d2 p ht
        rw [← this]
        apply List.map_congr_left
        intro i _
        simp [Function.comp]

lemma filter_range_getD {α : Type} (l : List α) (d : α) (p : α → Bool) :
    (((List.range l.length).filter (fun i => p (l.getD i d))).map
      (fun i => l.getD i d)) = l.filter p := by
  rw [filter_range_zip l l d d p rfl, zip_self_filter_map]

lemma filter_range_ne_nil {α : Type} (l : List α) (d : α) (p : α → Bool)
    (h : ∃ c ∈ l, p c = true) :
    (List.range l.length).filter (fun i => p (l.getD i d)) ≠ [] := by
  obtain ⟨c, hc, hpc⟩ := h
  obtain ⟨i, hi, hgi⟩ := List.mem_iff_getElem.mp hc
  intro hnil
  have hmem : i ∈ (List.range l.length).filter (fun i => p (l.getD i d)) := by
    apply List.mem_filter.mpr
    refine ⟨List.mem_range.mpr hi, ?_⟩
    rw [List.getD_eq_getElem l d hi, hgi]
    exact hpc
  rw [hnil] at hmem
  exact absurd hmem (List.not_mem_nil i)

lemma mem_filter_range_lt {α : Type} (l : List α) (d : α) (p : α → Bool) {i : ℕ}
    (h : i ∈ (List.range l.length).filter (fun i => p (l.getD i d))) : i < l.length :=
  List.mem_range.mp (List.mem_filter.mp h).1

lemma getD_mem {α : Type} {l : List α} {i : ℕ} (d : α) (h : i < l.length) :
    l.getD i d ∈ l := by
  rw [List.getD_eq_getElem l d h]
  exact List.getElem_mem h

/-- C7, counterexample: filtering a validly constructed multilabel mapping
with labels down to an empty color set raises a ValidationError instead of
returning the (empty) filtered mapping: the one-hot rows disappear, the
original labels are kept, and the constructor then rejects the label count
against num_classes = 0. -/
theorem c7_counterexample :
    mkColorLabels [((0 : ℤ), (0 : ℤ), (0 : ℤ)), (255, 0, 0)]
        (some [[(0 : ℚ)], [(1 : ℚ)]]) (some ["red"]) =
      Except.ok (ColorLabels.mk [(0, 0, 0), (255, 0, 0)] (some [[(0 : ℚ)], [(1 : ℚ)]])
        (some ["red"]) (some ["background", "red"])) ∧
    from_filter_by_colors (ColorLabels.mk [((0 : ℤ), (0 : ℤ), (0 : ℤ)), (255, 0, 0)]
        (some [[(0 : ℚ)], [(1 : ℚ)]]) (some ["red"]) (some ["background", "red"])) [] =
      Except.error "Cannot have a different number of classes and labels" :=
  ⟨rfl, rfl⟩

/-- C7, amended: for every validly constructed mapping whose one_hot_encoding
is absent or non-empty with uniform row lengths, and every color set that
retains at least one row whenever the mapping is multilabel with labels,
from_filter_by_colors returns a mapping with exactly the rows whose color is
in the set, in original order, with the one-hot rows aligned unchanged; and
when the one_hot_encoding is present (non-empty), the labels are the
original label list unchanged.  (Without the retained-row condition the
filtered constructor call fails the label-count check; with a
present-but-empty encoding the labels are filtered instead of kept.) -/
theorem c7_from_filter_by_colors (colors : List RGB) (enc : Option (List (List ℚ)))
    (labels : Option (List String)) (cl : ColorLabels) (keep : List RGB)
    (hv : mkColorLabels colors enc labels = Except.ok cl)
    (hne : enc ≠ some [])
    (hunif : ∀ row ∈ enc.getD [], row.length = num_classes_of colors enc)
    (hkeep : listTruthy enc = true → listTruthy labels = true →
      ∃ c ∈ colors, c ∈ keep) :
    ∃ m2, from_filter_by_colors cl keep = Except.ok m2 ∧
      m2.colors = cl.colors.filter (fun c => decide (c ∈ keep)) ∧
      m2.one_hot_encoding.getD [] =
        ((cl.colors.zip (cl.one_hot_encoding.getD [])).filter
          (fun p => decide (p.1 ∈ keep))).map Prod.snd ∧
      (cl.one_hot_encoding = none → m2.one_hot_encoding = none) ∧
      (cl.one_hot_encoding ≠ none → m2.labels = cl.labels) := by
  obtain ⟨hmeq, hch1, hch2⟩ := mkColorLabels_ok hv
  subst hmeq
  cases enc with
  | none =>
    unfold from_filter_by_colors
    simp only [listTruthy_none, Bool.false_eq_true, if_false]
    by_cases hlt : listTruthy labels = true
    · rw [if_pos hlt]
      cases hkept : (List.range colors.length).filter
          (fun i => decide (colors.getD i (0, 0, 0) ∈ keep)) with
      | nil =>
        refine ⟨_, mkColorLabels_eq_ok (by intro ht; simp [listTruthy] at ht)
          (by intro ht; simp [listTruthy] at ht), ?_, by simp, fun _ => rfl,
          fun hc => absurd rfl hc⟩
        simp only []
        rw [← filter_range_getD colors (0, 0, 0) (fun c => decide (c ∈ keep)), hkept]
      | cons k0 krest =>
        refine ⟨_, mkColorLabels_eq_ok (by intro ht; simp [listTruthy] at ht) ?_,
          ?_, by simp, fun _ => rfl, fun hc => absurd rfl hc⟩
        · intro _
          simp [num_classes_of]
        · simp only []
          rw [← hkept, filter_range_getD colors (0, 0, 0) (fun c => decide (c ∈ keep))]
    · rw [if_neg hlt]
      refine ⟨_, mkColorLabels_eq_ok (by intro ht; simp [listTruthy] at ht)
        (by intro ht; simp [listTruthy] at ht), ?_, by simp, fun _ => rfl,
        fun hc => absurd rfl hc⟩
      exact filter_range_getD colors (0, 0, 0) (fun c => decide (c ∈ keep))
  | some rows =>
    cases rows with
    | nil => exact absurd rfl hne
    | cons e0 erest =>
      have htr : listTruthy (some (e0 :: erest)) = true := rfl
      have hlen : colors.length = (e0 :: erest).length := by
        simpa using hch1 htr
      have hlablen : listTruthy labels = true → e0.length = (labels.getD []).length := by
        intro hlt
        simpa [num_classes_of] using hch2 hlt
      unfold from_filter_by_colors
      simp only [htr, if_true, Option.getD_some]
      by_cases hlt : listTruthy labels = true
      · have hex := hkeep htr hlt
        have hknil : (List.range colors.length).filter
            (fun i => decide (colors.getD i (0, 0, 0) ∈ keep)) ≠ [] :=
          filter_range_ne_nil colors (0, 0, 0) (fun c => decide (c ∈ keep))
            (by obtain ⟨c, hc, hck⟩ := hex; exact ⟨c, hc, by simp [hck]⟩)
        cases hkept : (List.range colors.length).filter
            (fun i => decide (colors.getD i (0, 0, 0) ∈ keep)) with
        | nil => exact absurd hkept hknil
        | cons k0 krest =>
          have hk0lt : k0 < colors.length :=
            mem_filter_range_lt colors (0, 0, 0) (fun c => decide (c ∈ keep))
              (hkept ▸ List.mem_cons_self k0 krest)
          have hk0lt2 : k0 < (e0 :: erest).length := hlen ▸ hk0lt
          have hrow0len : ((e0 :: erest).getD k0 []).length = e0.length := by
            have hm := hunif ((e0 :: erest).getD k0 []) (by simpa using getD_mem [] hk0lt2)
            simpa [num_classes_of] using hm
          refine ⟨_, mkColorLabels_eq_ok ?_ ?_, ?_, ?_, fun hc => Option.noConfusion hc,
            fun _ => rfl⟩
          · intro _
            simp
          · intro _
            simp only [List.map_cons, num_classes_of, Option.getD_some]
            rw [hrow0len]
            exact hlablen hlt
          · simp only []
            rw [← hkept, filter_range_getD colors (0, 0, 0) (fun c => decide (c ∈ keep))]
          · simp only [Option.getD_some]
            rw [← hkept]
            exact filter_range_zip colors (e0 :: erest) (0, 0, 0) []
              (fun c => decide (c ∈ keep)) hlen
      · cases hkept : (List.range colors.length).filter
            (fun i => decide (colors.getD i (0, 0, 0) ∈ keep)) with
        | nil =>
          refine ⟨_, mkColorLabels_eq_ok (by intro ht; simp [listTruthy] at ht)
            (by intro ht; exact absurd ht hlt), ?_, ?_, fun hc => Option.noConfusion hc,
            fun _ => rfl⟩
          · simp only []
            rw [← filter_range_getD colors (0, 0, 0) (fun c => decide (c ∈ keep)), hkept]
          · simp only []
            rw [← filter_range_zip colors (e0 :: erest) (0, 0, 0) []
              (fun c => decide (c ∈ keep)) hlen, hkept]
            simp
        | cons k0 krest =>
          refine ⟨_, mkColorLabels_eq_ok ?_ (by intro ht; exact absurd ht hlt), ?_, ?_,
            fun hc => Option.noConfusion hc, fun _ => rfl⟩
          · intro _
            simp
          · simp only []
            rw [← hkept, filter_range_getD colors (0, 0, 0) (fun c => decide (c ∈ keep))]
          · simp only [Option.getD_some]
            rw [← hkept]
            exact filter_range_zip colors (e0 :: erest) (0, 0, 0) []
              (fun c => decide (c ∈ keep)) hlen

/-- C7, witness: a multilabel mapping with labels filtered to one retained
color keeps the aligned one-hot row and the original labels. -/
theorem c7_witness :
    ∃ m2, from_filter_by_colors
        (ColorLabels.mk [((0 : ℤ), (0 : ℤ), (0 : ℤ)), (255, 0, 0)]
          (some [[(0 : ℚ)], [(1 : ℚ)]]) (some ["red"]) (some ["background", "red"]))
        [((255 : ℤ), (0 : ℤ), (0 : ℤ))] = Except.ok m2 ∧
      m2.colors = (ColorLabels.mk [((0 : ℤ), (0 : ℤ), (0 : ℤ)), (255, 0, 0)]
          (some [[(0 : ℚ)], [(1 : ℚ)]]) (some ["red"])
          (some ["background", "red"])).colors.filter
        (fun c => decide (c ∈ [((255 : ℤ), (0 : ℤ), (0 : ℤ))])) ∧
      m2.one_hot_encoding.getD [] =
        (((ColorLabels.mk [((0 : ℤ), (0 : ℤ), (0 : ℤ)), (255, 0, 0)]
            (some [[(0 : ℚ)], [(1 : ℚ)]]) (some ["red"])
            (some ["background", "red"])).colors.zip
          ((ColorLabels.mk [((0 : ℤ), (0 : ℤ), (0 : ℤ)), (255, 0, 0)]
            (some [[(0 : ℚ)], [(1 : ℚ)]]) (some ["red"])
            (some ["background", "red"])).one_hot_encoding.getD [])).filter
          (fun p => decide (p.1 ∈ [((255 : ℤ), (0 : ℤ), (0 : ℤ))]))).map Prod.snd ∧
      ((ColorLabels.mk [((0 : ℤ), (0 : ℤ), (0 : ℤ)), (255, 0, 0)]
          (some [[(0 : ℚ)], [(1 : ℚ)]]) (some ["red"])
          (some ["background", "red"])).one_hot_encoding = none →
        m2.one_hot_encoding = none) ∧
      ((ColorLabels.mk [((0 : ℤ), (0 : ℤ), (0 : ℤ)), (255, 0, 0)]
          (some [[(0 : ℚ)], [(1 : ℚ)]]) (some ["red"])
          (some ["background", "red"])).one_hot_encoding ≠ none →
        m2.labels = (ColorLabels.mk [((0 : ℤ), (0 : ℤ), (0 : ℤ)), (255, 0, 0)]
          (some [[(0 : ℚ)], [(1 : ℚ)]]) (some ["red"])
          (some ["background", "red"])).labels) :=
  c7_from_filter_by_colors [((0 : ℤ), (0 : ℤ), (0 : ℤ)), (255, 0, 0)]
    (some [[(0 : ℚ)], [(1 : ℚ)]]) (some ["red"])
    (ColorLabels.mk [((0 : ℤ), (0 : ℤ), (0 : ℤ)), (255, 0, 0)]
      (some [[(0 : ℚ)], [(1 : ℚ)]]) (some ["red"]) (some ["background", "red"]))
    [((255 : ℤ), (0 : ℤ), (0 : ℤ))] rfl (by simp) (by decide)
    (fun _ _ => ⟨(255, 0, 0), by decide, by decide⟩)
